import Mathlib

/-!
Verification of the Tacotron decoding helpers
(open_seq2seq/parts/tacotron/tacotron_helper.py).

A batch tensor of shape [B, D] is embedded as a function
Fin B → Fin D → ℚ (rational entries stand for the float entries; all
operations involved are exact selections, fills and additions).  The
ground-truth input buffer, after the time-major transpose and the
TensorArray unstack done in the constructor, is a family
ℕ → Fin B → Fin D → ℚ indexed by the time step.  Boolean batch vectors
are Fin B → Bool.
-/

namespace Tacotron

/-- tf.stop_gradient: the identity on forward values (it only affects
the backward pass, which has no observable effect on the values a
helper returns). -/
def stop_gradient {α : Type} (x : α) : α := x

/-- Optional prenet transform, applied to a whole [B, D] tensor.
Passing none means no prenet was configured. -/
def applyPrenet {B D : ℕ}
    (prenet : Option ((Fin B → Fin D → ℚ) → Fin B → Fin D → ℚ))
    (x : Fin B → Fin D → ℚ) : Fin B → Fin D → ℚ :=
  match prenet with
  | none => x
  | some p => p x

/-- math_ops.reduce_all over a boolean batch vector. -/
def reduce_all {B : ℕ} (f : Fin B → Bool) : Bool :=
  decide (∀ i, f i = true)

/-- The row-major enumeration of all index pairs of a [B, D] tensor. -/
def allIndexPairs (B D : ℕ) : List (Fin B × Fin D) :=
  (List.finRange B) ×ˢ (List.finRange D)

/-- array_ops.where in its one-argument form: the (row-major) list of
index pairs at which the boolean condition tensor holds. -/
def tfWhereIdx {B D : ℕ} (c : Fin B → Fin D → Bool) : List (Fin B × Fin D) :=
  (allIndexPairs B D).filter (fun p => c p.1 p.2)

/-- array_ops.gather_nd: the values of the tensor at a list of index
pairs. -/
def gather_nd {B D : ℕ} (t : Fin B → Fin D → ℚ) (idx : List (Fin B × Fin D)) :
    List ℚ :=
  idx.map (fun p => t p.1 p.2)

/-- array_ops.scatter_nd into a zero tensor of shape [B, D]: each entry
receives the sum of the updates whose index equals it (TensorFlow sums
duplicate indices). -/
def scatter_nd {B D : ℕ} (idx : List (Fin B × Fin D)) (upd : List ℚ) :
    Fin B → Fin D → ℚ :=
  fun i j =>
    (((idx.zip upd).filter (fun pv => decide (pv.1 = (i, j)))).map Prod.snd).sum

/-- The tensor
array_ops.where(select_sample, out, fill([B, D], -20.)) built in
get_next_input: the Bernoulli draw has shape (B, 1) and is tiled across
the feature dimension, so the mask is constant along each row. -/
def sample_ids_of {B D : ℕ} (draw : Fin B → Bool) (out : Fin B → Fin D → ℚ) :
    Fin B → Fin D → ℚ :=
  fun i j => if draw i then out i j else -20

/-- The scheduled-sampling combination step of
TacotronTrainingHelper.next_inputs.get_next_input: partition the index
pairs by sample_ids > -20 versus sample_ids <= -20, gather the model
outputs on the first part and the ground-truth inputs on the second,
and scatter both back into the base shape, adding the two scatters. -/
def scatterCombine {B D : ℕ} (draw : Fin B → Bool)
    (out inp : Fin B → Fin D → ℚ) : Fin B → Fin D → ℚ :=
  let sids := sample_ids_of draw out
  let where_sampling := tfWhereIdx (fun i j => decide (-20 < sids i j))
  let where_not_sampling := tfWhereIdx (fun i j => decide (sids i j ≤ -20))
  let sample_ids_sampling := gather_nd sids where_sampling
  let inputs_not_sampling := gather_nd inp where_not_sampling
  fun i j =>
    scatter_nd where_sampling sample_ids_sampling i j
      + scatter_nd where_not_sampling inputs_not_sampling i j

/-- The single elementwise where-select the spec describes as the
reference behaviour: pick the model output where the per-row draw is
true and the ground-truth input elsewhere.  (This definition follows
the words of the spec; it is the comparison point for the refinement claim
about the scatter implementation.) -/
def elementwiseWhereSelect {B D : ℕ} (draw : Fin B → Bool)
    (out inp : Fin B → Fin D → ℚ) : Fin B → Fin D → ℚ :=
  fun i j => if draw i then out i j else inp i j

/-- The body of TacotronTrainingHelper.next_inputs.get_next_input:
read the ground-truth buffer entry (here passed already read, as inpT),
optionally stop gradients, optionally apply the prenet to both the
ground-truth entry and the model output, then, when annealed teacher
forcing is enabled or sampling_prob > 0, blend the two via the
scatter combination driven by the Bernoulli draw. -/
def get_next_input {B D : ℕ} (sg : Bool)
    (prenet : Option ((Fin B → Fin D → ℚ) → Fin B → Fin D → ℚ))
    (anneal : Bool) (sampling_prob : ℚ) (draw : Fin B → Bool)
    (inpT out : Fin B → Fin D → ℚ) : Fin B → Fin D → ℚ :=
  let next_input := if sg then stop_gradient inpT else inpT
  let out := if sg then stop_gradient out else out
  let next_input := applyPrenet prenet next_input
  let out := applyPrenet prenet out
  if anneal || 0 < sampling_prob then scatterCombine draw out next_input
  else next_input

/-- The finished vector computed at the top of
TacotronTrainingHelper.next_inputs: next_time >= sequence_length when
mask_decoder_sequence is set, an all-false tile otherwise. -/
def trainingFinished {B : ℕ} (mask : Bool) (seqLen : Fin B → ℕ) (t : ℕ) :
    Fin B → Bool :=
  if mask then fun i => decide (t + 1 ≥ seqLen i) else fun _ => false

/-- start_inputs of the training helper: zeros_like of one time slice of
the inputs, passed through the prenet when one is configured. -/
def trainingStartInputs {B D : ℕ}
    (prenet : Option ((Fin B → Fin D → ℚ) → Fin B → Fin D → ℚ)) :
    Fin B → Fin D → ℚ :=
  applyPrenet prenet (fun _ _ => 0)

/-- TacotronTrainingHelper.next_inputs: compute finished, and return
start_inputs when every batch element is finished, the get_next_input
result otherwise.  buf is the unstacked ground-truth buffer (buf t is
the [B, D] slice inp.read(t)); draw is the Bernoulli sample of the step. -/
def trainingNextInputs {B D : ℕ} (mask : Bool) (seqLen : Fin B → ℕ)
    (sampling_prob : ℚ) (anneal sg : Bool)
    (prenet : Option ((Fin B → Fin D → ℚ) → Fin B → Fin D → ℚ))
    (buf : ℕ → Fin B → Fin D → ℚ) (t : ℕ) (out : Fin B → Fin D → ℚ)
    (draw : Fin B → Bool) : (Fin B → Bool) × (Fin B → Fin D → ℚ) :=
  let finished := trainingFinished mask seqLen t
  let all_finished := reduce_all finished
  (finished,
    if all_finished then trainingStartInputs prenet
    else get_next_input sg prenet anneal sampling_prob draw (buf t) out)

/-!
The inference helper (TacotronHelper) applies tf.squeeze to its
finished tensor, which changes the rank of the tensor.  To talk about that,
tensors flowing through its finished computation are embedded
shape-aware: a shape (list of dimension sizes) together with the
row-major flat list of entries.  Elementwise operations keep the shape;
squeeze drops the singleton dimensions and keeps the flat data.
-/

/-- A tensor as a shape plus its row-major flat data. -/
structure TTensor (α : Type) where
  shape : List ℕ
  data : List α

/-- An elementwise operation on a tensor: the shape is unchanged. -/
def tmap {α β : Type} (f : α → β) (t : TTensor α) : TTensor β :=
  ⟨t.shape, t.data.map f⟩

/-- tf.squeeze: remove every dimension of size 1; the row-major flat
data is unchanged. -/
def tfSqueeze {α : Type} (t : TTensor α) : TTensor α :=
  ⟨t.shape.filter (fun d => decide (d ≠ 1)), t.data⟩

/-- tf.round on a scalar: round to the nearest integer, rounding
halfway cases to the nearest even integer (half-to-even), as
TensorFlow does.  The result is returned as a rational, mirroring the
float-to-float signature. -/
def roundTF (x : ℚ) : ℚ :=
  let f : ℤ := ⌊x⌋
  let r : ℚ := x - f
  if r < 1 / 2 then (f : ℚ)
  else if 1 / 2 < r then ((f + 1 : ℤ) : ℚ)
  else if f % 2 = 0 then (f : ℚ) else ((f + 1 : ℤ) : ℚ)

/-- tf.cast of a numeric scalar to bool: true exactly on nonzero
values. -/
def castBoolQ (x : ℚ) : Bool := decide (x ≠ 0)

/-- The finished tensor computed at the top of TacotronHelper
(inference helper) next_inputs: when mask_decoder_sequence is set,
sigmoid then round then cast-to-bool of the stop-token predictions,
then squeeze; otherwise an all-false tile of length batch_size.
The sigmoid is a parameter of the embedding: the claims about it need
only that its values lie strictly between 0 and 1. -/
def inferFinished (mask : Bool) (sigmoid : ℚ → ℚ) (B : ℕ)
    (stop : TTensor ℚ) : TTensor Bool :=
  if mask then tfSqueeze (tmap castBoolQ (tmap roundTF (tmap sigmoid stop)))
  else ⟨[B], List.replicate B false⟩

/-- start_inputs of the inference helper: the first time slice of the
provided inputs, passed through the prenet when one is configured. -/
def inferStartInputs {B D : ℕ}
    (prenet : Option ((Fin B → Fin D → ℚ) → Fin B → Fin D → ℚ))
    (inputs0 : Fin B → Fin D → ℚ) : Fin B → Fin D → ℚ :=
  applyPrenet prenet inputs0

/-- TacotronHelper.next_inputs (inference helper): compute finished
from the stop-token predictions, and return start_inputs when every
entry of finished is true, get_next_input(outputs) — the optionally
prenet-transformed model output — otherwise.  The step index t is
received but (like next_time in the source) never used. -/
def inferNextInputs {B D : ℕ} (mask : Bool)
    (prenet : Option ((Fin B → Fin D → ℚ) → Fin B → Fin D → ℚ))
    (sigmoid : ℚ → ℚ) (inputs0 : Fin B → Fin D → ℚ) (t : ℕ)
    (out : Fin B → Fin D → ℚ) (stop : TTensor ℚ) :
    TTensor Bool × (Fin B → Fin D → ℚ) :=
  let _ := t + 1
  let finished := inferFinished mask sigmoid B stop
  let all_finished := finished.data.all (fun b => b)
  (finished,
    if all_finished then inferStartInputs prenet inputs0
    else applyPrenet prenet out)

/-! Pointwise evaluation of the gather/scatter pipeline. -/

lemma nodup_allIndexPairs (B D : ℕ) : (allIndexPairs B D).Nodup :=
  (List.nodup_finRange B).product (List.nodup_finRange D)

lemma mem_allIndexPairs {B D : ℕ} (p : Fin B × Fin D) : p ∈ allIndexPairs B D := by
  cases p with
  | mk i j => exact List.mem_product.2 ⟨List.mem_finRange i, List.mem_finRange j⟩

lemma nodup_tfWhereIdx {B D : ℕ} (c : Fin B → Fin D → Bool) :
    (tfWhereIdx c).Nodup :=
  (nodup_allIndexPairs B D).filter _

lemma mem_tfWhereIdx {B D : ℕ} (c : Fin B → Fin D → Bool) (i : Fin B)
    (j : Fin D) : (i, j) ∈ tfWhereIdx c ↔ c i j = true := by
  rw [tfWhereIdx, List.mem_filter]
  simp [mem_allIndexPairs]

/-- Scattering the values of a function gathered on a duplicate-free
index list reproduces that function on the list and zero elsewhere. -/
lemma scatter_nd_map_eval {B D : ℕ} (f : Fin B × Fin D → ℚ)
    (idx : List (Fin B × Fin D)) (hnd : idx.Nodup) (i : Fin B) (j : Fin D) :
    scatter_nd idx (idx.map f) i j = if (i, j) ∈ idx then f (i, j) else 0 := by
  induction idx with
  | nil => simp [scatter_nd]
  | cons p idx ih =>
    rw [List.nodup_cons] at hnd
    have h0 := ih hnd.2
    simp only [scatter_nd] at h0 ⊢
    rw [List.map_cons, List.zip_cons_cons, List.filter_cons]
    by_cases hp : p = (i, j)
    · subst hp
      rw [if_pos (by simp)]
      rw [List.map_cons, List.sum_cons]
      rw [if_neg hnd.1] at h0
      rw [h0]
      simp
    · rw [if_neg (by simp [hp])]
      rw [h0]
      by_cases hm : (i, j) ∈ idx
      · rw [if_pos hm, if_pos (List.mem_cons_of_mem _ hm)]
      · rw [if_neg hm, if_neg ?notmem]
        case notmem =>
          intro h
          rcases List.mem_cons.1 h with h1 | h2
          · exact hp h1.symm
          · exact hm h2

/-- gather_nd is the map of pointwise evaluation over the index list. -/
lemma gather_nd_eq_map {B D : ℕ} (t : Fin B → Fin D → ℚ)
    (idx : List (Fin B × Fin D)) :
    gather_nd t idx = idx.map (fun p => t p.1 p.2) := rfl

/-- Pointwise value of the scatter-based scheduled-sampling blend: the
model output where the row was drawn for sampling and that output
exceeds the -20 sentinel, the ground-truth input everywhere else. -/
lemma scatterCombine_eval {B D : ℕ} (draw : Fin B → Bool)
    (out inp : Fin B → Fin D → ℚ) (i : Fin B) (j : Fin D) :
    scatterCombine draw out inp i j =
      if draw i = true ∧ -20 < out i j then out i j else inp i j := by
  rw [scatterCombine]
  simp only [gather_nd_eq_map]
  rw [scatter_nd_map_eval _ _ (nodup_tfWhereIdx _) i j,
    scatter_nd_map_eval _ _ (nodup_tfWhereIdx _) i j]
  simp only [mem_tfWhereIdx, decide_eq_true_eq, sample_ids_of]
  cases hd : draw i
  · simp [lt_irrefl]
  · by_cases hgt : -20 < out i j
    · simp [hgt, not_le.2 hgt]
    · simp [hgt, not_lt.1 hgt]

/-- C1, counterexample: the claim that the index-partitioned
scatter/gather combination agrees with a single elementwise
where-select for every model output fails at the concrete input
B = D = 1, draw = [true], model output = [[-20]], ground-truth input
= [[0]]: the -20 output collides with the sentinel fill value, so the
scatter path classifies the position as not-sampled and returns the
ground-truth 0, while the elementwise select returns the output -20. -/
theorem scatter_where_equiv_counterexample :
    scatterCombine (B := 1) (D := 1) (fun _ => true) (fun _ _ => -20)
        (fun _ _ => 0) 0 0 ≠
      elementwiseWhereSelect (B := 1) (D := 1) (fun _ => true)
        (fun _ _ => -20) (fun _ _ => 0) 0 0 := by
  rw [scatterCombine_eval]
  simp only [elementwiseWhereSelect, if_true, lt_self_iff_false, and_false,
    if_false]
  norm_num

/-- C1 (amended): for every model output, ground-truth input and
per-batch-element Bernoulli draw, PROVIDED every entry of the model
output is strictly greater than the -20 sentinel, the
index-partitioned scatter/gather combination produces a next_input
numerically identical to a single elementwise where-select picking the
model output where the draw is true and the ground-truth input
elsewhere. -/
theorem scatter_where_equiv_above_sentinel {B D : ℕ} (draw : Fin B → Bool)
    (out inp : Fin B → Fin D → ℚ) (h : ∀ i j, -20 < out i j)
    (i : Fin B) (j : Fin D) :
    scatterCombine draw out inp i j = elementwiseWhereSelect draw out inp i j := by
  rw [scatterCombine_eval]
  simp only [elementwiseWhereSelect]
  cases hd : draw i
  · simp
  · simp [h i j]

/-- Witness for the amended C1 at a concrete input. -/
theorem scatter_where_equiv_above_sentinel_witness :
    (∀ i j : Fin 1, (-20 : ℚ) < (fun _ _ : Fin 1 => (5 : ℚ)) i j) ∧
      scatterCombine (fun _ : Fin 1 => true) (fun _ _ : Fin 1 => (5 : ℚ))
          (fun _ _ : Fin 1 => (2 : ℚ)) 0 0 =
        elementwiseWhereSelect (fun _ : Fin 1 => true)
          (fun _ _ : Fin 1 => (5 : ℚ)) (fun _ _ : Fin 1 => (2 : ℚ)) 0 0 :=
  ⟨fun _ _ => by norm_num,
    scatter_where_equiv_above_sentinel (fun _ => true) (fun _ _ => 5)
      (fun _ _ => 2) (fun _ _ => by norm_num) 0 0⟩

/-- C2: with sampling_prob = 0 and annealed teacher forcing disabled,
while not every batch element is finished, next_inputs returns exactly
the (optionally prenet-transformed) ground-truth buffer entry at index
t — pure teacher forcing is exact. -/
theorem teacher_forcing_exact {B D : ℕ} (mask : Bool) (seqLen : Fin B → ℕ)
    (sg : Bool) (prenet : Option ((Fin B → Fin D → ℚ) → Fin B → Fin D → ℚ))
    (buf : ℕ → Fin B → Fin D → ℚ) (t : ℕ) (out : Fin B → Fin D → ℚ)
    (draw : Fin B → Bool)
    (h : reduce_all (trainingFinished mask seqLen t) = false)
    (i : Fin B) (j : Fin D) :
    (trainingNextInputs mask seqLen 0 false sg prenet buf t out draw).2 i j =
      applyPrenet prenet (buf t) i j := by
  simp only [trainingNextInputs, h, Bool.false_eq_true, if_false,
    get_next_input, stop_gradient, ite_self]
  norm_num

/-- Witness for C2 at a concrete input. -/
theorem teacher_forcing_exact_witness :
    reduce_all (trainingFinished (B := 1) true (fun _ => 5) 0) = false ∧
      (trainingNextInputs (B := 1) (D := 1) true (fun _ => 5) 0 false false
          none (fun _ _ _ => (7 : ℚ)) 0 (fun _ _ => (4 : ℚ))
          (fun _ => false)).2 0 0 =
        applyPrenet none (fun _ _ : Fin 1 => (7 : ℚ)) 0 0 :=
  ⟨by simp [reduce_all, trainingFinished],
    teacher_forcing_exact true (fun _ => 5) false none (fun _ _ _ => 7) 0
      (fun _ _ => 4) (fun _ => false)
      (by simp [reduce_all, trainingFinished]) 0 0⟩

/-- C3, counterexample: with sampling_prob = 1 (so the Bernoulli draw
is surely true for every batch element), and the batch not finished,
next_inputs does NOT always return the model output: at B = D = 1,
sequence_length = [5], t = 0, ground-truth buffer constantly 3, model
output [[-20]], the returned next_input is 3, not the output -20,
because the output collides with the -20 sentinel of the scatter
partition. -/
theorem sampling_prob_one_counterexample :
    reduce_all (trainingFinished (B := 1) true (fun _ => 5) 0) = false ∧
      (trainingNextInputs (B := 1) (D := 1) true (fun _ => 5) 1 false false
          none (fun _ _ _ => (3 : ℚ)) 0 (fun _ _ => (-20 : ℚ))
          (fun _ => true)).2 0 0 ≠
        applyPrenet none (fun _ _ : Fin 1 => (-20 : ℚ)) 0 0 := by
  constructor
  · simp [reduce_all, trainingFinished]
  · have h : reduce_all (trainingFinished (B := 1) true (fun _ => 5) 0) =
        false := by simp [reduce_all, trainingFinished]
    simp only [trainingNextInputs, h, Bool.false_eq_true, if_false,
      get_next_input, stop_gradient, ite_self, applyPrenet]
    rw [if_pos (by norm_num)]
    rw [scatterCombine_eval]
    norm_num

/-- C3 (amended): with sampling_prob = 1 and the Bernoulli draw surely
true for every batch element, while not every batch element is
finished, and PROVIDED every entry of the (optionally
prenet-transformed) model output is strictly greater than the -20
sentinel, next_inputs returns exactly the (optionally
prenet-transformed) model output. -/
theorem sampling_prob_one_returns_output {B D : ℕ} (mask : Bool)
    (seqLen : Fin B → ℕ) (anneal sg : Bool)
    (prenet : Option ((Fin B → Fin D → ℚ) → Fin B → Fin D → ℚ))
    (buf : ℕ → Fin B → Fin D → ℚ) (t : ℕ) (out : Fin B → Fin D → ℚ)
    (draw : Fin B → Bool) (hdraw : ∀ i, draw i = true)
    (hout : ∀ i j, -20 < applyPrenet prenet out i j)
    (hnf : reduce_all (trainingFinished mask seqLen t) = false)
    (i : Fin B) (j : Fin D) :
    (trainingNextInputs mask seqLen 1 anneal sg prenet buf t out draw).2 i j =
      applyPrenet prenet out i j := by
  simp only [trainingNextInputs, hnf, Bool.false_eq_true, if_false,
    get_next_input, stop_gradient, ite_self]
  rw [if_pos (by norm_num)]
  rw [scatterCombine_eval]
  simp [hdraw i, hout i j]

/-- Witness for the amended C3 at a concrete input. -/
theorem sampling_prob_one_returns_output_witness :
    (∀ i : Fin 1, (fun _ : Fin 1 => true) i = true) ∧
      (∀ i j : Fin 1, (-20 : ℚ) <
        applyPrenet none (fun _ _ : Fin 1 => (6 : ℚ)) i j) ∧
      reduce_all (trainingFinished (B := 1) true (fun _ => 5) 0) = false ∧
      (trainingNextInputs (B := 1) (D := 1) true (fun _ => 5) 1 false false
          none (fun _ _ _ => (3 : ℚ)) 0 (fun _ _ => (6 : ℚ))
          (fun _ => true)).2 0 0 =
        applyPrenet none (fun _ _ : Fin 1 => (6 : ℚ)) 0 0 :=
  ⟨fun _ => rfl, fun _ _ => by norm_num [applyPrenet],
    by simp [reduce_all, trainingFinished],
    sampling_prob_one_returns_output true (fun _ => 5) false false none
      (fun _ _ _ => 3) 0 (fun _ _ => 6) (fun _ => true) (fun _ => rfl)
      (fun _ _ => by norm_num [applyPrenet])
      (by simp [reduce_all, trainingFinished]) 0 0⟩

/-- C4: for the inference helper, whenever not every batch element is
finished, next_inputs returns the prenet-transformed model output when
a prenet is configured and the model output itself otherwise; the
helper has no ground-truth input to fall back to. -/
theorem infer_next_input_is_output {B D : ℕ} (mask : Bool)
    (prenet : Option ((Fin B → Fin D → ℚ) → Fin B → Fin D → ℚ))
    (sigmoid : ℚ → ℚ) (inputs0 : Fin B → Fin D → ℚ) (t : ℕ)
    (out : Fin B → Fin D → ℚ) (stop : TTensor ℚ)
    (h : (inferFinished mask sigmoid B stop).data.all (fun b => b) = false)
    (i : Fin B) (j : Fin D) :
    (inferNextInputs mask prenet sigmoid inputs0 t out stop).2 i j =
      applyPrenet prenet out i j := by
  simp only [inferNextInputs, h, Bool.false_eq_true, if_false]

/-- Witness for C4 at a concrete input. -/
theorem infer_next_input_is_output_witness :
    (inferFinished false (fun _ => 1 / 2) 1 ⟨[1], [0]⟩).data.all
        (fun b => b) = false ∧
      (inferNextInputs (B := 1) (D := 1) false none (fun _ => 1 / 2)
          (fun _ _ => (8 : ℚ)) 2 (fun _ _ => (4 : ℚ)) ⟨[1], [0]⟩).2 0 0 =
        applyPrenet none (fun _ _ : Fin 1 => (4 : ℚ)) 0 0 :=
  ⟨by simp [inferFinished],
    infer_next_input_is_output false none (fun _ => 1 / 2) (fun _ _ => 8) 2
      (fun _ _ => 4) ⟨[1], [0]⟩ (by simp [inferFinished]) 0 0⟩

/-- The batch-wide finished flag of the training helper is monotone in the
step index: once every batch element is finished at step t, the same
holds at every later step. -/
lemma trainingAllFinished_mono {B : ℕ} (mask : Bool) (seqLen : Fin B → ℕ)
    {t t' : ℕ} (htt : t ≤ t')
    (hall : reduce_all (trainingFinished mask seqLen t) = true) :
    reduce_all (trainingFinished mask seqLen t') = true := by
  cases mask
  · exact hall
  · simp only [trainingFinished, if_true, reduce_all, decide_eq_true_eq,
      ge_iff_le] at hall ⊢
    intro i
    have := hall i
    omega

/-- C5: once the batch-wide finished flag is true, next_inputs returns
start_input, for any model output; for the training helper this
persists at every later step index, and for the inference helper it
holds for any step index and model output (its finished flag depends
only on the stop-token predictions). -/
theorem all_finished_absorbing :
    (∀ (B D : ℕ) (mask : Bool) (seqLen : Fin B → ℕ) (p : ℚ)
        (anneal sg : Bool)
        (prenet : Option ((Fin B → Fin D → ℚ) → Fin B → Fin D → ℚ))
        (buf : ℕ → Fin B → Fin D → ℚ) (t t' : ℕ) (out : Fin B → Fin D → ℚ)
        (draw : Fin B → Bool), t ≤ t' →
        reduce_all (trainingFinished mask seqLen t) = true →
        (trainingNextInputs mask seqLen p anneal sg prenet buf t' out draw).2 =
          trainingStartInputs prenet) ∧
    (∀ (B D : ℕ) (mask : Bool)
        (prenet : Option ((Fin B → Fin D → ℚ) → Fin B → Fin D → ℚ))
        (sigmoid : ℚ → ℚ) (inputs0 : Fin B → Fin D → ℚ) (t : ℕ)
        (out : Fin B → Fin D → ℚ) (stop : TTensor ℚ),
        (inferFinished mask sigmoid B stop).data.all (fun b => b) = true →
        (inferNextInputs mask prenet sigmoid inputs0 t out stop).2 =
          inferStartInputs prenet inputs0) := by
  constructor
  · intro B D mask seqLen p anneal sg prenet buf t t' out draw htt hall
    have h2 := trainingAllFinished_mono mask seqLen htt hall
    simp only [trainingNextInputs, h2, if_true]
  · intro B D mask prenet sigmoid inputs0 t out stop hall
    simp only [inferNextInputs, hall, if_true]

/-- Witness for C5, both helpers, at concrete inputs. -/
theorem all_finished_absorbing_witness :
    (0 ≤ 3 ∧
      reduce_all (trainingFinished (B := 1) true (fun _ => 1) 0) = true ∧
      (trainingNextInputs (B := 1) (D := 1) true (fun _ => 1) 0 false false
          none (fun _ _ _ => (9 : ℚ)) 3 (fun _ _ => (4 : ℚ))
          (fun _ => false)).2 = trainingStartInputs none) ∧
    ((inferFinished true (fun _ => 1) 1 ⟨[1], [0]⟩).data.all
        (fun b => b) = true ∧
      (inferNextInputs (B := 1) (D := 1) true none (fun _ => 1)
          (fun _ _ => (8 : ℚ)) 2 (fun _ _ => (4 : ℚ)) ⟨[1], [0]⟩).2 =
        inferStartInputs none (fun _ _ => (8 : ℚ))) := by
  have hinf : (inferFinished true (fun _ => 1) 1
      (⟨[1], [0]⟩ : TTensor ℚ)).data.all (fun b => b) = true := by
    simp [inferFinished, tmap, tfSqueeze, castBoolQ, roundTF]
  refine ⟨⟨by norm_num, by simp [reduce_all, trainingFinished], ?_⟩,
    ⟨hinf, ?_⟩⟩
  · exact all_finished_absorbing.1 1 1 true (fun _ => 1) 0 false false none
      (fun _ _ _ => 9) 0 3 (fun _ _ => 4) (fun _ => false) (by norm_num)
      (by simp [reduce_all, trainingFinished])
  · exact all_finished_absorbing.2 1 1 true none (fun _ => 1) (fun _ _ => 8)
      2 (fun _ _ => 4) ⟨[1], [0]⟩ hinf

/-- C6: with mask_decoder_sequence disabled, the finished value
returned by next_inputs is all-false for both helpers, for every step,
model output, stop-token prediction and sequence length. -/
theorem mask_disabled_finished_all_false :
    (∀ (B D : ℕ) (seqLen : Fin B → ℕ) (p : ℚ) (anneal sg : Bool)
        (prenet : Option ((Fin B → Fin D → ℚ) → Fin B → Fin D → ℚ))
        (buf : ℕ → Fin B → Fin D → ℚ) (t : ℕ) (out : Fin B → Fin D → ℚ)
        (draw : Fin B → Bool) (i : Fin B),
        (trainingNextInputs false seqLen p anneal sg prenet buf t out
          draw).1 i = false) ∧
    (∀ (B D : ℕ)
        (prenet : Option ((Fin B → Fin D → ℚ) → Fin B → Fin D → ℚ))
        (sigmoid : ℚ → ℚ) (inputs0 : Fin B → Fin D → ℚ) (t : ℕ)
        (out : Fin B → Fin D → ℚ) (stop : TTensor ℚ),
        (inferNextInputs false prenet sigmoid inputs0 t out stop).1 =
          ⟨[B], List.replicate B false⟩) := by
  exact ⟨fun _ _ _ _ _ _ _ _ _ _ _ _ => rfl, fun _ _ _ _ _ _ _ _ => rfl⟩

/-- C7: with mask_decoder_sequence enabled, the training
helper finished flag at step t is exactly (t + 1 >= sequence_length i) for
every batch element i. -/
theorem training_finished_formula :
    ∀ (B D : ℕ) (seqLen : Fin B → ℕ) (p : ℚ) (anneal sg : Bool)
      (prenet : Option ((Fin B → Fin D → ℚ) → Fin B → Fin D → ℚ))
      (buf : ℕ → Fin B → Fin D → ℚ) (t : ℕ) (out : Fin B → Fin D → ℚ)
      (draw : Fin B → Bool) (i : Fin B),
      (trainingNextInputs true seqLen p anneal sg prenet buf t out
        draw).1 i = decide (t + 1 ≥ seqLen i) :=
  fun _ _ _ _ _ _ _ _ _ _ _ _ => rfl

/-- Half-to-even rounding of a value strictly between 0 and 1 is 0 or 1. -/
lemma roundTF_mem_pair {y : ℚ} (h0 : 0 < y) (h1 : y < 1) :
    roundTF y = 0 ∨ roundTF y = 1 := by
  have hf : ⌊y⌋ = 0 := Int.floor_eq_zero_iff.2 ⟨le_of_lt h0, h1⟩
  simp only [roundTF, hf, Int.cast_zero, sub_zero]
  by_cases h : y < 1 / 2
  · left
    rw [if_pos h]
  · by_cases h' : 1 / 2 < y
    · right
      rw [if_neg h, if_pos h']
      norm_num
    · left
      rw [if_neg h, if_neg h']
      norm_num

/-- On {0, 1}-valued rounds, cast-to-bool coincides with the test
"equals 1". -/
lemma castBoolQ_round_eq {y : ℚ} (h0 : 0 < y) (h1 : y < 1) :
    castBoolQ (roundTF y) = decide (roundTF y = 1) := by
  rcases roundTF_mem_pair h0 h1 with h | h <;> simp [castBoolQ, h]

/-- C8: for the inference helper with sequence masking enabled and a
sigmoid whose values lie strictly between 0 and 1, the finished flag
returned by next_inputs satisfies, for every batch element k,
finished[k] = (round(sigmoid(stop_token_prediction[k])) == 1). -/
theorem infer_finished_formula (B D : ℕ) (sigmoid : ℚ → ℚ)
    (hsig : ∀ x, 0 < sigmoid x ∧ sigmoid x < 1)
    (prenet : Option ((Fin B → Fin D → ℚ) → Fin B → Fin D → ℚ))
    (inputs0 : Fin B → Fin D → ℚ) (t : ℕ) (out : Fin B → Fin D → ℚ)
    (stop : TTensor ℚ) (k : ℕ) (hk : k < stop.data.length) :
    (inferNextInputs true prenet sigmoid inputs0 t out stop).1.data.getD
        k false =
      decide (roundTF (sigmoid (stop.data.getD k 0)) = 1) := by
  have hfin : (inferNextInputs true prenet sigmoid inputs0 t out stop).1 =
      inferFinished true sigmoid B stop := rfl
  rw [hfin]
  simp only [inferFinished, if_true, tfSqueeze, tmap]
  have hlen : k < (((stop.data.map sigmoid).map roundTF).map
      castBoolQ).length := by simpa using hk
  rw [List.getD_eq_getElem _ _ hlen, List.getD_eq_getElem _ _ hk]
  simp only [List.getElem_map]
  exact castBoolQ_round_eq (hsig _).1 (hsig _).2

/-- Witness for C8 at a concrete input. -/
theorem infer_finished_formula_witness :
    (∀ x : ℚ, 0 < (fun _ : ℚ => (1 : ℚ) / 2) x ∧
        (fun _ : ℚ => (1 : ℚ) / 2) x < 1) ∧
      0 < (TTensor.data (α := ℚ) ⟨[1], [0]⟩).length ∧
      (inferNextInputs (B := 1) (D := 1) true none (fun _ => 1 / 2)
            (fun _ _ => (8 : ℚ)) 2 (fun _ _ => (4 : ℚ))
            ⟨[1], [0]⟩).1.data.getD 0 false =
        decide (roundTF ((fun _ : ℚ => (1 : ℚ) / 2)
          ((TTensor.data (α := ℚ) ⟨[1], [0]⟩).getD 0 0)) = 1) :=
  ⟨fun _ => by norm_num, by norm_num,
    infer_finished_formula 1 1 (fun _ => 1 / 2) (fun _ => by norm_num) none
      (fun _ _ => 8) 2 (fun _ _ => 4) ⟨[1], [0]⟩ 0 (by norm_num)⟩

/-- C9: under masking with deterministic stop/length inputs, the
per-element finished flag is monotone across steps: for the training
helper, finished[i] at step t implies finished[i] at every later step;
for the inference helper, the finished value returned by next_inputs
is entirely determined by the stop-token predictions, so it is
unchanged by the step index or model output of a later call. -/
theorem finished_monotone :
    (∀ (B D : ℕ) (seqLen : Fin B → ℕ) (p : ℚ) (anneal sg : Bool)
        (prenet : Option ((Fin B → Fin D → ℚ) → Fin B → Fin D → ℚ))
        (buf : ℕ → Fin B → Fin D → ℚ) (t t' : ℕ)
        (out out' : Fin B → Fin D → ℚ) (draw draw' : Fin B → Bool)
        (i : Fin B), t ≤ t' →
        (trainingNextInputs true seqLen p anneal sg prenet buf t out
          draw).1 i = true →
        (trainingNextInputs true seqLen p anneal sg prenet buf t' out'
          draw').1 i = true) ∧
    (∀ (B D : ℕ) (mask : Bool)
        (prenet : Option ((Fin B → Fin D → ℚ) → Fin B → Fin D → ℚ))
        (sigmoid : ℚ → ℚ) (inputs0 : Fin B → Fin D → ℚ) (t t' : ℕ)
        (out out' : Fin B → Fin D → ℚ) (stop : TTensor ℚ),
        (inferNextInputs mask prenet sigmoid inputs0 t out stop).1 =
          (inferNextInputs mask prenet sigmoid inputs0 t' out' stop).1) := by
  constructor
  · intro B D seqLen p anneal sg prenet buf t t' out out' draw draw' i htt h
    have h1 : trainingFinished true seqLen t i = true := h
    have h2 : trainingFinished true seqLen t' i = true := by
      simp only [trainingFinished, if_true, decide_eq_true_eq, ge_iff_le]
        at h1 ⊢
      omega
    exact h2
  · intro B D mask prenet sigmoid inputs0 t t' out out' stop
    rfl

/-- Witness for C9, training conjunct, at a concrete input. -/
theorem finished_monotone_witness :
    2 ≤ 7 ∧
      (trainingNextInputs (B := 1) (D := 1) true (fun _ => 3) 0 false false
          none (fun _ _ _ => (9 : ℚ)) 2 (fun _ _ => (4 : ℚ))
          (fun _ => false)).1 0 = true ∧
      (trainingNextInputs (B := 1) (D := 1) true (fun _ => 3) 0 false false
          none (fun _ _ _ => (9 : ℚ)) 7 (fun _ _ => (5 : ℚ))
          (fun _ => true)).1 0 = true := by
  have h2 : (trainingNextInputs (B := 1) (D := 1) true (fun _ => 3) 0 false
      false none (fun _ _ _ => (9 : ℚ)) 2 (fun _ _ => (4 : ℚ))
      (fun _ => false)).1 0 = true := by
    simp [trainingNextInputs, trainingFinished]
  exact ⟨by norm_num, h2,
    finished_monotone.1 1 1 (fun _ => 3) 0 false false none
      (fun _ _ _ => 9) 2 7 (fun _ _ => 4) (fun _ _ => 5) (fun _ => false)
      (fun _ => true) 0 (by norm_num) h2⟩

/-- C10: with masking enabled the inference helper squeezes its
finished tensor, so every singleton dimension is removed: for a batch
of size 1 (stop-token predictions of shape [1]) the returned finished
is a rank-0 scalar, not a boolean vector of length 1. -/
theorem infer_finished_squeezed_rank_zero (sigmoid : ℚ → ℚ)
    (prenet : Option ((Fin 1 → Fin 1 → ℚ) → Fin 1 → Fin 1 → ℚ))
    (inputs0 : Fin 1 → Fin 1 → ℚ) (t : ℕ) (out : Fin 1 → Fin 1 → ℚ)
    (stop : TTensor ℚ) (hshape : stop.shape = [1]) :
    (inferNextInputs true prenet sigmoid inputs0 t out stop).1.shape = [] ∧
      (inferNextInputs true prenet sigmoid inputs0 t out stop).1.shape ≠
        [1] := by
  have hfin : (inferNextInputs true prenet sigmoid inputs0 t out stop).1 =
      inferFinished true sigmoid 1 stop := rfl
  rw [hfin]
  simp only [inferFinished, if_true, tfSqueeze, tmap, hshape]
  constructor
  · simp
  · simp

/-- Witness for C10 at a concrete input. -/
theorem infer_finished_squeezed_rank_zero_witness :
    TTensor.shape (α := ℚ) ⟨[1], [0]⟩ = [1] ∧
      (inferNextInputs (B := 1) (D := 1) true none (fun _ => 1 / 2)
          (fun _ _ => (8 : ℚ)) 2 (fun _ _ => (4 : ℚ))
          ⟨[1], [0]⟩).1.shape = [] :=
  ⟨rfl,
    (infer_finished_squeezed_rank_zero (fun _ => 1 / 2) none (fun _ _ => 8)
      2 (fun _ _ => 4) ⟨[1], [0]⟩ rfl).1⟩

end Tacotron
